import Mathlib

/-!
Verification of the page-reconstruction algorithm in
`code/backend/batch/utilities/helpers/azure_document_intelligence_helper.py`
(class `AzureDocumentIntelligenceClient`).

The Python code is shallowly embedded: the analysis result returned by the
document-intelligence service is a plain data structure; the stateful loops
of `begin_analyze_document_from_url` become structurally recursive functions
threading their state explicitly; Python exceptions (IndexError on `xs[0]`
and `content[i]`, plus whatever the service client raises) become the error
side of `Except`.  Python dicts built by repeated assignment are embedded as
association lists in insertion order, looked up with last-write-wins
semantics.
-/

/-- A span `(offset, length)` into the flat document content string. -/
structure DISpan where
  offset : Nat
  length : Nat
deriving DecidableEq, Repr

/-- A bounding region of a table; only its 1-based page number is used. -/
structure BoundingRegion where
  page_number : Nat
deriving DecidableEq, Repr

/-- A table cell, as used by `_table_to_html`. `kind`, `column_span` and
`row_span` are optional in the service model (Python `None`). -/
structure DICell where
  row_index : Nat
  column_index : Nat
  column_span : Option Nat
  row_span : Option Nat
  kind : Option String
  content : String
deriving DecidableEq, Repr

/-- A table of the analysis result. -/
structure DITable where
  row_count : Nat
  cells : List DICell
  bounding_regions : List BoundingRegion
  spans : List DISpan
deriving DecidableEq, Repr

/-- A paragraph of the analysis result: optional role plus its spans. -/
structure DIParagraph where
  role : Option String
  spans : List DISpan
deriving DecidableEq, Repr

/-- A page of the analysis result; the code uses only `page.spans[0]`. -/
structure DIPage where
  spans : List DISpan
deriving DecidableEq, Repr

/-- The full analysis result consumed by `begin_analyze_document_from_url`:
the flat `content` string (as a list of characters), `paragraphs`, `tables`
and `pages`.  An absent optional collection (`hasattr` test in the code)
is embedded as the empty list, which the code treats identically. -/
structure AnalyzeResult where
  content : List Char
  paragraphs : List DIParagraph
  tables : List DITable
  pages : List DIPage
deriving DecidableEq, Repr

/-- A Python exception, identified by its message. -/
structure PyError where
  msg : String
deriving DecidableEq, Repr

/-- One record of the returned page map:
`{"page_number": ..., "offset": ..., "page_text": ...}`. -/
structure PageRecord where
  page_number : Nat
  offset : Nat
  page_text : String
deriving DecidableEq, Repr

/-- Python's `html.escape` (with quotes) character by character: `&`, `<`,
`>`, `"` and the apostrophe (code point 39) are replaced by their HTML
entities; every other character passes through. -/
def escapeChar (c : Char) : String :=
  if c = '&' then "&amp;"
  else if c = '<' then "&lt;"
  else if c = '>' then "&gt;"
  else if c = '"' then "&quot;"
  else if c.toNat = 39 then "&#x27;"
  else String.singleton c

/-- Python's `html.escape(s, quote=True)` as used on cell contents. -/
def htmlEscape (s : String) : String :=
  String.join (s.toList.map escapeChar)

/-- The fixed class-level dict `form_recognizer_role_to_html`, composed with
the `.get` lookup of line 140: `title ↦ h1`, `sectionHeading ↦ h2`,
`paragraph ↦ p`; `pageHeader`, `pageFooter` (mapped to Python `None`) and
unrecognized roles all yield `none`, which the code skips. -/
def form_recognizer_role_to_html (role : String) : Option String :=
  if role = "title" then some "h1"
  else if role = "sectionHeading" then some "h2"
  else if role = "paragraph" then some "p"
  else none

/-- Stable insertion of a cell into a list sorted by `column_index`
(placed after all cells with a column index ≤ its own). -/
def insertByCol (x : DICell) : List DICell → List DICell
  | [] => [x]
  | y :: ys =>
    if x.column_index < y.column_index then x :: y :: ys
    else y :: insertByCol x ys

/-- Python's stable `sorted(..., key=lambda cell: cell.column_index)`. -/
def sortByCol (l : List DICell) : List DICell :=
  l.foldl (fun acc x => insertByCol x acc) []

/-- The body of the inner cell loop of `_table_to_html` (lines 59-66):
tag selection, optional `colspan`/`rowspan` attributes, escaped content. -/
def cellPiece (cell : DICell) : String :=
  let tag := if cell.kind = some "columnHeader" then "th" else "td"
  let colPart :=
    match cell.column_span with
    | some n => if 1 < n then " colspan=\"" ++ toString n ++ "\"" else ""
    | none => ""
  let rowPart :=
    match cell.row_span with
    | some n => if 1 < n then " rowspan=\"" ++ toString n ++ "\"" else ""
    | none => ""
  "<" ++ tag ++ (colPart ++ rowPart) ++ ">" ++ htmlEscape cell.content
    ++ "</" ++ tag ++ ">"

/-- `_table_to_html` (lines 48-69), with the Python `+=` accumulation
rendered as left folds over the row list and each row's cells. -/
def _table_to_html (table : DITable) : String :=
  let rows := (List.range table.row_count).map (fun i =>
    sortByCol (table.cells.filter (fun cell => cell.row_index == i)))
  (rows.foldl (fun acc row_cells =>
    (row_cells.foldl (fun acc2 cell => acc2 ++ cellPiece cell)
      (acc ++ "<tr>")) ++ "</tr>") "<table>") ++ "</table>"

/-- Last-write-wins lookup in a Python dict embedded as an association
list in insertion order: the value of the last matching key, if any. -/
def dictGet (d : List (Nat × String)) (k : Nat) : Option String :=
  (d.reverse.find? (fun p => p.1 == k)).map Prod.snd

/-- The role of a paragraph as recorded by lines 104-109:
`paragraph.role if paragraph.role is not None else "paragraph"`. -/
def roleOf (p : DIParagraph) : String :=
  p.role.getD "paragraph"

/-- The role-boundary indexing loop (lines 99-109): for each paragraph, in
document order, record `roles_start[spans[0].offset] = role` and
`roles_end[spans[0].offset + spans[0].length] = role`.  `paragraph.spans[0]`
on an empty span list raises IndexError.  The produced association lists
keep document order, so `dictGet` realizes the dict's last-write-wins. -/
def buildRoles : List DIParagraph →
    Except PyError (List (Nat × String) × List (Nat × String))
  | [] => .ok ([], [])
  | p :: rest =>
    match p.spans with
    | [] => .error ⟨"IndexError: list index out of range"⟩
    | s0 :: _ => do
      let (rs, re) ← buildRoles rest
      .ok ((s0.offset, roleOf p) :: rs,
           (s0.offset + s0.length, roleOf p) :: re)

/-- The table-selection comprehension (lines 114-118): keep the tables whose
first bounding region's `page_number` equals `page_num + 1`, in order;
`table.bounding_regions[0]` on an empty list raises IndexError. -/
def tablesOnPage (tables : List DITable) (page_num : Nat) :
    Except PyError (List DITable) :=
  match tables with
  | [] => .ok []
  | t :: rest =>
    match t.bounding_regions with
    | [] => .error ⟨"IndexError: list index out of range"⟩
    | br :: _ => do
      let rest' ← tablesOnPage rest page_num
      if br.page_number = page_num + 1 then .ok (t :: rest')
      else .ok rest'

/-- Marking one table's spans into the page-local character array
(lines 125-130): for each span and each `i < span.length`, set index
`span.offset - page_offset + i` to this table's id when the index falls in
`[0, page_length)`; out-of-range indices are silently dropped.  The
subtraction is over ℤ, as in Python. -/
def markTable (pageOffset pageLength : Nat) (tc : List (Option Nat))
    (tid : Nat) (t : DITable) : List (Option Nat) :=
  t.spans.foldl (fun tc sp =>
    (List.range sp.length).foldl (fun tc (i : Nat) =>
      let idx : Int := (sp.offset : Int) - (pageOffset : Int) + (i : Int)
      if 0 ≤ idx ∧ idx < (pageLength : Int) then tc.set idx.toNat (some tid)
      else tc) tc) tc

/-- The `table_chars` array (lines 123-130): a `page_length`-sized array of
`-1` (here `none`), overwritten by each selected table's spans in turn. -/
def tableChars (pageOffset pageLength : Nat) (tops : List DITable) :
    List (Option Nat) :=
  tops.enum.foldl (fun tc p => markTable pageOffset pageLength tc p.1 p.2)
    (List.replicate pageLength none)

/-- The per-page context of the reconstruction scan: the document content,
the two role maps, the page's base offset and the page's selected tables. -/
structure PageCtx where
  content : List Char
  rs : List (Nat × String)
  re : List (Nat × String)
  pageOffset : Nat
  tops : List DITable
deriving Repr

/-- The opening tag emitted at an unmarked position (lines 138-142):
present exactly when `roles_start` has the position and the role maps to a
tag. -/
def startTag (rs : List (Nat × String)) (position : Nat) : String :=
  match dictGet rs position with
  | some role =>
    match form_recognizer_role_to_html role with
    | some h => "<" ++ h ++ ">"
    | none => ""
  | none => ""

/-- The closing tag emitted at an unmarked position (lines 143-147). -/
def endTag (re : List (Nat × String)) (position : Nat) : String :=
  match dictGet re position with
  | some role =>
    match form_recognizer_role_to_html role with
    | some h => "</" ++ h ++ ">"
    | none => ""
  | none => ""

/-- The text contributed by one unmarked scan position (lines 137-149):
opening tag, then closing tag, then the literal character
`content[position]`; indexing past the end of `content` raises IndexError. -/
def charPiece (ctx : PageCtx) (position : Nat) : Except PyError String :=
  match ctx.content.get? position with
  | some c => .ok (startTag ctx.rs position ++ endTag ctx.re position
      ++ String.singleton c)
  | none => .error ⟨"IndexError: string index out of range"⟩

/-- The linear-scan loop over `table_chars` (lines 133-153) in structurally
recursive form: `idx` is the current page-local index, `added` the
`added_tables` set (a list queried by membership).  Returns the accumulated
`page_text` piecewise (concatenated front to rear) together with the final
`added_tables`, or the first exception the loop body raises. -/
def buildFrom (ctx : PageCtx) :
    Nat → List (Option Nat) → List Nat → Except PyError (String × List Nat)
  | _, [], added => .ok ("", added)
  | idx, none :: rest, added => do
    let s ← charPiece ctx (ctx.pageOffset + idx)
    let (srest, a) ← buildFrom ctx (idx + 1) rest added
    .ok (s ++ srest, a)
  | idx, some tid :: rest, added =>
    if tid ∈ added then buildFrom ctx (idx + 1) rest added
    else
      match ctx.tops.get? tid with
      | none => .error ⟨"IndexError: list index out of range"⟩
      | some t => do
        let (srest, a) ← buildFrom ctx (idx + 1) rest (added ++ [tid])
        .ok (_table_to_html t ++ srest, a)

/-- The `page_text` built by the scan of lines 133-153, starting from empty
text and an empty `added_tables` set. -/
def buildPageText (ctx : PageCtx) (tc : List (Option Nat)) :
    Except PyError String :=
  (buildFrom ctx 0 tc []).map Prod.fst

/-- One iteration of the page loop (lines 112-155): select this page's
tables, read `page.spans[0]`, mark the table characters, run the scan and
append the trailing space. -/
def buildPage (res : AnalyzeResult) (rs re : List (Nat × String))
    (page_num : Nat) (page : DIPage) : Except PyError String := do
  let tops ← tablesOnPage res.tables page_num
  match page.spans with
  | [] => .error ⟨"IndexError: list index out of range"⟩
  | s0 :: _ =>
    let tc := tableChars s0.offset s0.length tops
    (buildPageText ⟨res.content, rs, re, s0.offset, tops⟩ tc).map
      (fun s => s ++ " ")

/-- The page loop (lines 111-159) in recursive form: `page_num` is the
`enumerate` counter and `off` the running `offset`; each produced record
carries the offset before its page and advances it by the page text's
length. -/
def buildPages (res : AnalyzeResult) (rs re : List (Nat × String)) :
    Nat → Nat → List DIPage → Except PyError (List PageRecord)
  | _, _, [] => .ok []
  | page_num, off, page :: rest => do
    let ptext ← buildPage res rs re page_num page
    let prest ← buildPages res rs re (page_num + 1) (off + ptext.length) rest
    .ok (⟨page_num, off, ptext⟩ :: prest)

/-- The whole `try` body of `begin_analyze_document_from_url` after the
service call (lines 96-161): role-boundary indexing followed by the page
loop, starting at page 0 and offset 0. -/
def buildPageMap (res : AnalyzeResult) : Except PyError (List PageRecord) := do
  let (rs, re) ← buildRoles res.paragraphs
  buildPages res rs re 0 0 res.pages

/-- The wrapped error raised on line 164:
`ValueError(f"Error: {traceback.format_exc()}. Error: {e}") from e`.  The
runtime traceback text is abstracted as the placeholder `<traceback>`; the
original exception is retained as the `cause` (`from e`). -/
structure WrappedError where
  message : String
  cause : PyError
deriving DecidableEq, Repr

/-- `begin_analyze_document_from_url` (lines 71-164).  The document
intelligence service call of lines 89-94 is an outward interface and enters
as the `analysis` argument: either the analysis result or the exception the
submission/polling raised.  Any exception — from the service call or from
the reconstruction — is wrapped into the single `ValueError` of line 164;
otherwise the full page map is returned. -/
def begin_analyze_document_from_url
    (analysis : Except PyError AnalyzeResult) :
    Except WrappedError (List PageRecord) :=
  match analysis.bind buildPageMap with
  | .ok pm => .ok pm
  | .error e =>
    .error ⟨"Error: <traceback>. Error: " ++ e.msg, e⟩

/-- Modelled from the spec: per-cell rendering as § 4.1 words it — `<th>`
for kind "columnHeader" else `<td>`, a `colspan="N"` attribute exactly when
column_span > 1 and `rowspan="N"` exactly when row_span > 1, content
HTML-escaped, closing tag. -/
def specCellHtml (cell : DICell) : String :=
  let tag := if cell.kind = some "columnHeader" then "th" else "td"
  let colAttr :=
    if 1 < cell.column_span.getD 1 then
      " colspan=\"" ++ toString (cell.column_span.getD 1) ++ "\""
    else ""
  let rowAttr :=
    if 1 < cell.row_span.getD 1 then
      " rowspan=\"" ++ toString (cell.row_span.getD 1) ++ "\""
    else ""
  "<" ++ tag ++ (colAttr ++ rowAttr) ++ ">" ++ htmlEscape cell.content
    ++ "</" ++ tag ++ ">"

/-- Modelled from the spec: `<table>`, then per row index 0..row_count-1 a
`<tr>` block of that row's cells sorted by column index, then `</table>`
(spec § 4.1, "Table rendering"). -/
def tableToHtmlSpec (table : DITable) : String :=
  "<table>" ++
    String.join ((List.range table.row_count).map (fun i =>
      "<tr>" ++
        String.join
          ((sortByCol (table.cells.filter (fun cell => cell.row_index == i))).map
            specCellHtml) ++
      "</tr>")) ++
  "</table>"

/-- What the linear scan produces on a stretch of `n` table-free positions
starting at absolute position `pos`: per position, opening tag, closing
tag, then the literal content character (default irrelevant: used only
under a bounds hypothesis). -/
def renderPlain (ctx : PageCtx) : Nat → Nat → String
  | _, 0 => ""
  | pos, n + 1 =>
    startTag ctx.rs pos ++ endTag ctx.re pos
      ++ String.singleton (ctx.content.getD pos ' ')
      ++ renderPlain ctx (pos + 1) n

/-- The substring of the document content of length `n` starting at
position `pos`. -/
def segStr (content : List Char) (pos n : Nat) : String :=
  String.mk ((content.drop pos).take n)

/-- The end-to-end scenario input of spec § 8: page 1 is the plain text
"Hello World", page 2 is exactly covered by one 2×2 table whose row-0 cells
are column headers. -/
def res7 : AnalyzeResult where
  content := "Hello WorldABCD".toList
  paragraphs := []
  tables := [{ row_count := 2
               cells := [⟨0, 0, none, none, some "columnHeader", "A"⟩,
                         ⟨0, 1, none, none, some "columnHeader", "B"⟩,
                         ⟨1, 0, none, none, none, "C"⟩,
                         ⟨1, 1, none, none, none, "D"⟩]
               bounding_regions := [⟨2⟩]
               spans := [⟨11, 4⟩] }]
  pages := [⟨[⟨0, 11⟩]⟩, ⟨[⟨11, 4⟩]⟩]

/-- A two-page document with contiguous page spans and a single title
paragraph whose first span ends exactly at the end of page 1
(end offset 1 = page 1's offset 0 + length 1 = page 2's offset). -/
def res9 : AnalyzeResult where
  content := ['A', 'B']
  paragraphs := [⟨some "title", [⟨0, 1⟩]⟩]
  tables := []
  pages := [⟨[⟨0, 1⟩]⟩, ⟨[⟨1, 1⟩]⟩]

/-- A title paragraph covering document offsets [5,10) and a single page
covering [0,L) with no tables. -/
def titleDoc (content : List Char) (L : Nat) : AnalyzeResult where
  content := content
  paragraphs := [⟨some "title", [⟨5, 5⟩]⟩]
  tables := []
  pages := [⟨[⟨0, L⟩]⟩]

def pm7 : List PageRecord :=
  [⟨0, 0, "Hello World "⟩,
   ⟨1, 12,
    "<table><tr><th>A</th><th>B</th></tr><tr><td>C</td><td>D</td></tr></table> "⟩]

def paras8 : List DIParagraph :=
  [⟨some "title", [⟨0, 5⟩]⟩, ⟨some "sectionHeading", [⟨0, 7⟩]⟩]

def rs8 : List (Nat × String) := [(0, "title"), (0, "sectionHeading")]

def re8 : List (Nat × String) := [(5, "title"), (7, "sectionHeading")]

def tbl7 : DITable :=
  { row_count := 2
    cells := [⟨0, 0, none, none, some "columnHeader", "A"⟩,
              ⟨0, 1, none, none, some "columnHeader", "B"⟩,
              ⟨1, 0, none, none, none, "C"⟩,
              ⟨1, 1, none, none, none, "D"⟩]
    bounding_regions := [⟨2⟩]
    spans := [⟨11, 4⟩] }

def ctx2 : PageCtx := ⟨['X', 'Y', 'Z'], [], [], 0, [tbl7]⟩

def ctx9 : PageCtx := ⟨['A'], [], [(1, "x")], 0, []⟩

def ctx10 : PageCtx := ⟨['A', 'B'], [(1, "title")], [(1, "sectionHeading")], 0, []⟩

theorem join_cons (s : String) (l : List String) :
    String.join (s :: l) = s ++ String.join l := by
  simp only [String.join_eq, List.map_cons, List.flatten_cons, String.congr_append]

theorem foldl_append_join {α : Type} (f : α → String) :
    ∀ (l : List α) (init : String),
      l.foldl (fun acc x => acc ++ f x) init = init ++ String.join (l.map f)
  | [], init => by simp [String.join]
  | x :: l, init => by
    rw [List.foldl_cons, foldl_append_join f l (init ++ f x), List.map_cons,
      join_cons, String.append_assoc]

theorem cellPiece_eq_spec (cell : DICell) : cellPiece cell = specCellHtml cell := by
  unfold cellPiece specCellHtml
  rcases cell with ⟨ri, ci, colSpan, rowSpan, kind, content⟩
  cases colSpan <;> cases rowSpan <;> simp [Option.getD]

theorem table_rows_eq (t : DITable) :
    ∀ (rows : List (List DICell)) (init : String),
      rows.foldl (fun acc row_cells =>
        (row_cells.foldl (fun acc2 cell => acc2 ++ cellPiece cell)
          (acc ++ "<tr>")) ++ "</tr>") init
      = init ++ String.join (rows.map (fun row =>
          "<tr>" ++ String.join (row.map specCellHtml) ++ "</tr>"))
  | [], init => by simp [String.join]
  | row :: rows, init => by
    rw [List.foldl_cons, table_rows_eq t rows, List.map_cons, join_cons,
      foldl_append_join]
    have : (row.map cellPiece) = row.map specCellHtml :=
      List.map_congr_left (fun c _ => cellPiece_eq_spec c)
    rw [this]
    simp [String.append_assoc]

/-- Claim C5: `_table_to_html` produces exactly the rendering described by
the spec — `<table>`, a `<tr>` block per row index 0..row_count-1 whose
cells are sorted by column index, `<th>` for "columnHeader" kind else
`<td>`, `colspan`/`rowspan` attributes exactly when the span exceeds 1,
HTML-escaped content (`<script>` renders as `&lt;script&gt;`), closing
tags, `</table>`. -/
theorem table_to_html_matches_spec :
    (∀ t : DITable, _table_to_html t = tableToHtmlSpec t)
    ∧ htmlEscape "<script>" = "&lt;script&gt;"
    ∧ cellPiece ⟨0, 0, some 3, none, none, "x"⟩ = "<td colspan=\"3\">x</td>"
    ∧ cellPiece ⟨0, 0, some 1, none, none, "x"⟩ = "<td>x</td>" := by
  refine ⟨fun t => ?_, by decide, by decide, by decide⟩
  unfold _table_to_html tableToHtmlSpec
  dsimp only
  rw [table_rows_eq t, List.map_map]
  simp [String.append_assoc, Function.comp_def]

/-- Claim C7: on the 2-page scenario (page 1 plain "Hello World", page 2
exactly one 2x2 table with row-0 column headers) the returned page map is
page 1 "Hello World " at offset 0 and page 2 the rendered table plus
separator at offset 12. -/
theorem end_to_end_two_page_scenario :
    begin_analyze_document_from_url (.ok res7) = .ok
      [⟨0, 0, "Hello World "⟩,
       ⟨1, 12,
        "<table><tr><th>A</th><th>B</th></tr><tr><td>C</td><td>D</td></tr></table> "⟩] := by
  rfl

/-- Counterexample to C9 as stated: in a two-page document with contiguous
page spans and a title paragraph whose first span ends exactly at the end
of page 1 (end offset 1 = page 1 offset 0 + length 1), the closing tag
`</h1>` IS emitted — in page 2's page_text, whose scan visits that
absolute offset. -/
theorem closing_tag_spills_to_next_page :
    buildPageMap res9 = .ok [⟨0, 0, "<h1>A "⟩, ⟨1, 6, "</h1>B "⟩]
    ∧ "</h1>B " = "</h1>" ++ "B " := by
  exact ⟨by rfl, rfl⟩

theorem bindOk {ε α β : Type} {x : Except ε α} {f : α → Except ε β} {b : β}
    (h : (x >>= f) = .ok b) : ∃ a, x = .ok a ∧ f a = .ok b := by
  cases x with
  | error e => exact absurd h (fun hh => Except.noConfusion hh)
  | ok a => exact ⟨a, rfl, h⟩

@[simp] theorem ok_bind {ε α β : Type} (a : α) (f : α → Except ε β) :
    (Except.ok a >>= f) = f a := rfl

@[simp] theorem error_bind {ε α β : Type} (e : ε) (f : α → Except ε β) :
    ((Except.error e : Except ε α) >>= f) = Except.error e := rfl

@[simp] theorem ok_bind' {ε α β : Type} (a : α) (f : α → Except ε β) :
    (Except.ok a).bind f = f a := rfl

@[simp] theorem error_bind' {ε α β : Type} (e : ε) (f : α → Except ε β) :
    ((Except.error e : Except ε α).bind f) = Except.error e := rfl

@[simp] theorem map_ok {ε α β : Type} (a : α) (f : α → β) :
    (Except.ok a : Except ε α).map f = .ok (f a) := rfl

@[simp] theorem map_error {ε α β : Type} (e : ε) (f : α → β) :
    ((Except.error e : Except ε α).map f) = .error e := rfl

theorem buildPages_offsets (res : AnalyzeResult) (rs re : List (Nat × String)) :
    ∀ (pages : List DIPage) (pn off : Nat) (pm : List PageRecord),
      buildPages res rs re pn off pages = .ok pm →
      (∀ h0 : 0 < pm.length, (pm.get ⟨0, h0⟩).offset = off) ∧
      (∀ (i : Nat) (hi : i + 1 < pm.length),
        (pm.get ⟨i + 1, hi⟩).offset
          = (pm.get ⟨i, Nat.lt_of_succ_lt hi⟩).offset
            + (pm.get ⟨i, Nat.lt_of_succ_lt hi⟩).page_text.length)
  | [], pn, off, pm, h => by
    obtain rfl : ([] : List PageRecord) = pm := by
      simpa [buildPages] using h
    exact ⟨fun h0 => absurd h0 (by simp), fun i hi => absurd hi (by simp)⟩
  | page :: rest, pn, off, pm, h => by
    rw [buildPages] at h
    obtain ⟨ptext, h1, h⟩ := bindOk h
    obtain ⟨prest, h2, h3⟩ := bindOk h
    obtain rfl : ({ page_number := pn, offset := off, page_text := ptext }
        :: prest : List PageRecord) = pm := by
      injection h3
    have IH := buildPages_offsets res rs re rest (pn + 1)
      (off + ptext.length) prest h2
    refine ⟨fun h0 => rfl, fun i hi => ?_⟩
    cases i with
    | zero =>
      have hp : 0 < prest.length := by
        simpa using hi
      simpa using IH.1 hp
    | succ j =>
      have hj : j + 1 < prest.length := by
        simpa using hi
      simpa using IH.2 j hj

/-- Claim C1: in the page map returned by `begin_analyze_document_from_url`,
the first record's offset is 0 and each consecutive pair satisfies
`offset[i+1] = offset[i] + len(page_text[i])`; equivalently the length of a
page's text equals the difference between the next record's offset and its
own. -/
theorem page_map_offset_accumulation (analysis : Except PyError AnalyzeResult)
    (pm : List PageRecord)
    (h : begin_analyze_document_from_url analysis = .ok pm) :
    (∀ h0 : 0 < pm.length, (pm.get ⟨0, h0⟩).offset = 0) ∧
    (∀ (i : Nat) (hi : i + 1 < pm.length),
      (pm.get ⟨i + 1, hi⟩).offset
        = (pm.get ⟨i, Nat.lt_of_succ_lt hi⟩).offset
          + (pm.get ⟨i, Nat.lt_of_succ_lt hi⟩).page_text.length ∧
      (pm.get ⟨i, Nat.lt_of_succ_lt hi⟩).page_text.length
        = (pm.get ⟨i + 1, hi⟩).offset
          - (pm.get ⟨i, Nat.lt_of_succ_lt hi⟩).offset) := by
  obtain ⟨res, hres, hb⟩ : ∃ res, analysis = .ok res ∧ buildPageMap res = .ok pm := by
    cases analysis with
    | error e => simp [begin_analyze_document_from_url] at h
    | ok res =>
      refine ⟨res, rfl, ?_⟩
      cases hbb : buildPageMap res with
      | error e => simp [begin_analyze_document_from_url, hbb] at h
      | ok pm2 =>
        simp only [begin_analyze_document_from_url, ok_bind', hbb] at h
        obtain rfl : pm2 = pm := by injection h
        rfl
  rw [buildPageMap] at hb
  obtain ⟨⟨rs, re⟩, h1, h2⟩ := bindOk hb
  have H := buildPages_offsets res rs re res.pages 0 0 pm h2
  exact ⟨H.1, fun i hi => ⟨H.2 i hi, by rw [H.2 i hi]; omega⟩⟩

/-- Witness for C1: the offset chain evaluated on the two-page scenario. -/
theorem page_map_offset_accumulation_witness :
    begin_analyze_document_from_url (.ok res7) = .ok pm7 ∧
    (pm7.get ⟨0, by decide⟩).offset = 0 ∧
    (pm7.get ⟨1, by decide⟩).offset
      = (pm7.get ⟨0, by decide⟩).offset + (pm7.get ⟨0, by decide⟩).page_text.length :=
  ⟨rfl, (page_map_offset_accumulation (.ok res7) pm7 rfl).1 (by decide),
    ((page_map_offset_accumulation (.ok res7) pm7 rfl).2 0 (by decide)).1⟩

theorem foldl_preserves_length {β : Type} (g : List (Option Nat) → β → List (Option Nat))
    (hg : ∀ tc b, (g tc b).length = tc.length) :
    ∀ (l : List β) (tc : List (Option Nat)), (l.foldl g tc).length = tc.length
  | [], _ => rfl
  | b :: l, tc => by
    rw [List.foldl_cons, foldl_preserves_length g hg l, hg]

theorem markTable_length (po pl : Nat) (tc : List (Option Nat)) (tid : Nat)
    (t : DITable) : (markTable po pl tc tid t).length = tc.length := by
  unfold markTable
  refine foldl_preserves_length _ (fun tc sp => ?_) t.spans tc
  refine foldl_preserves_length _ (fun tc i => ?_) (List.range sp.length) tc
  dsimp only
  split
  · exact List.length_set tc _ _
  · rfl

theorem tableChars_length (po pl : Nat) (tops : List DITable) :
    (tableChars po pl tops).length = pl := by
  unfold tableChars
  rw [foldl_preserves_length _ (fun tc p => markTable_length po pl tc p.1 p.2)
    tops.enum _]
  exact List.length_replicate pl none

theorem tablesOnPage_filter :
    ∀ (tables : List DITable) (pn : Nat) (tops : List DITable),
      tablesOnPage tables pn = .ok tops →
      tops = tables.filter (fun t =>
        (t.bounding_regions.head?.map BoundingRegion.page_number) == some (pn + 1))
  | [], pn, tops, h => by
    obtain rfl : ([] : List DITable) = tops := by
      simpa [tablesOnPage] using h
    rfl
  | t :: rest, pn, tops, h => by
    rw [tablesOnPage] at h
    cases hbr : t.bounding_regions with
    | nil =>
      rw [hbr] at h
      exact absurd h (fun hh => Except.noConfusion hh)
    | cons br brs =>
      rw [hbr] at h
      obtain ⟨rest', h1, h2⟩ := bindOk h
      have IH := tablesOnPage_filter rest pn rest' h1
      by_cases hpn : br.page_number = pn + 1
      · rw [if_pos hpn] at h2
        obtain rfl : t :: rest' = tops := by injection h2
        rw [List.filter_cons]
        simp [hbr, hpn, IH]
      · rw [if_neg hpn] at h2
        obtain rfl : rest' = tops := by injection h2
        rw [List.filter_cons]
        simp [hbr, hpn, IH]

/-- Claim C3: a table is selected for a page iff its first bounding
region's page number equals the page's 1-based number (the selection is
literally the filter on that predicate), so a table whose first bounding
region points elsewhere is not in the page's table list no matter where its
spans fall; and marking drops out-of-range span indices silently, leaving
the `table_chars` array at exactly `page_length` entries. -/
theorem table_selection_first_bounding_region (tables : List DITable) (pn : Nat)
    (tops : List DITable) (h : tablesOnPage tables pn = .ok tops) :
    tops = tables.filter (fun t =>
      (t.bounding_regions.head?.map BoundingRegion.page_number) == some (pn + 1))
    ∧ (∀ t, t ∈ tables →
        (t.bounding_regions.head?.map BoundingRegion.page_number) ≠ some (pn + 1) →
        t ∉ tops)
    ∧ (∀ po pl : Nat, (tableChars po pl tops).length = pl) := by
  have hf := tablesOnPage_filter tables pn tops h
  refine ⟨hf, fun t ht hne hmem => ?_, fun po pl => tableChars_length po pl tops⟩
  rw [hf, List.mem_filter] at hmem
  exact hne (by simpa using hmem.2)

/-- Witness for C3: the table of `res7` has its first bounding region on
page 2, so page 1 (0-based page 0) selects no table even though nothing
else prevents it. -/
theorem table_selection_first_bounding_region_witness :
    tablesOnPage res7.tables 0 = .ok [] ∧
    ([] : List DITable) = res7.tables.filter (fun t =>
      (t.bounding_regions.head?.map BoundingRegion.page_number) == some 1) ∧
    (tableChars 0 11 ([] : List DITable)).length = 11 :=
  ⟨rfl, (table_selection_first_bounding_region res7.tables 0 [] rfl).1,
    (table_selection_first_bounding_region res7.tables 0 [] rfl).2.2 0 11⟩

theorem dictGet_cons (k : Nat) (v : String) (d : List (Nat × String)) (o : Nat) :
    dictGet ((k, v) :: d) o = (dictGet d o).or (if k == o then some v else none) := by
  rw [dictGet, dictGet, List.reverse_cons, List.find?_append]
  cases hf : List.find? (fun pr => pr.1 == o) d.reverse with
  | some pr => simp [Option.or]
  | none =>
    cases hk : (k == o) with
    | true => simp [Option.or, List.find?, hk]
    | false => simp [Option.or, List.find?, hk]

theorem find?_reverse_cons {α : Type} (q : α → Bool) (p : α) (l : List α) :
    ((p :: l).reverse.find? q) = (l.reverse.find? q).or (if q p then some p else none) := by
  rw [List.reverse_cons, List.find?_append]
  cases hf : List.find? q l.reverse with
  | some pr => simp [Option.or]
  | none =>
    cases hq : q p with
    | true => simp [Option.or, List.find?, hq]
    | false => simp [Option.or, List.find?, hq]

theorem option_map_or {α β : Type} (f : α → β) (a b : Option α) :
    (a.or b).map f = (a.map f).or (b.map f) := by
  cases a <;> cases b <;> rfl

/-- Claim C8: in the role-boundary maps, the entry recorded at an offset
is the role of the last paragraph (in document order of the paragraphs
sequence) whose first span starts (resp. ends) at that offset —
last-write-wins. -/
theorem role_boundary_last_write_wins :
    ∀ (paras : List DIParagraph) (rs re : List (Nat × String)),
      buildRoles paras = .ok (rs, re) →
      ∀ o : Nat,
        dictGet rs o = ((paras.reverse.find? (fun p =>
          p.spans.head?.map DISpan.offset == some o)).map roleOf) ∧
        dictGet re o = ((paras.reverse.find? (fun p =>
          p.spans.head?.map (fun s => s.offset + s.length) == some o)).map roleOf)
  | [], rs, re, h, o => by
    obtain ⟨rfl, rfl⟩ : ([] : List (Nat × String)) = rs ∧ ([] : List (Nat × String)) = re := by
      rw [buildRoles] at h
      injection h with h2
      exact ⟨congrArg Prod.fst h2, congrArg Prod.snd h2⟩
    simp [dictGet]
  | p :: rest, rs, re, h, o => by
    rw [buildRoles] at h
    cases hsp : p.spans with
    | nil =>
      rw [hsp] at h
      exact absurd h (fun hh => Except.noConfusion hh)
    | cons s0 ss =>
      rw [hsp] at h
      obtain ⟨⟨rs2, re2⟩, h1, h2⟩ := bindOk h
      obtain ⟨rfl, rfl⟩ : ((s0.offset, roleOf p) :: rs2 = rs)
          ∧ ((s0.offset + s0.length, roleOf p) :: re2 = re) := by
        injection h2 with h3
        exact ⟨congrArg Prod.fst h3, congrArg Prod.snd h3⟩
      have IH := role_boundary_last_write_wins rest rs2 re2 h1 o
      constructor
      · rw [dictGet_cons, find?_reverse_cons, option_map_or, IH.1]
        congr 1
        simp [hsp]
      · rw [dictGet_cons, find?_reverse_cons, option_map_or, IH.2]
        congr 1
        simp [hsp]

/-- Witness for C8: two paragraphs both starting at offset 0; the map
records the later one's role "sectionHeading". -/
theorem role_boundary_last_write_wins_witness :
    buildRoles paras8 = .ok (rs8, re8) ∧
    dictGet rs8 0 = ((paras8.reverse.find? (fun p =>
      p.spans.head?.map DISpan.offset == some 0)).map roleOf) ∧
    dictGet rs8 0 = some "sectionHeading" :=
  ⟨rfl, (role_boundary_last_write_wins paras8 rs8 re8 rfl 0).1, by rfl⟩

theorem buildFrom_append (ctx : PageCtx) :
    ∀ (u v : List (Option Nat)) (idx : Nat) (added : List Nat),
      buildFrom ctx idx (u ++ v) added =
        (buildFrom ctx idx u added).bind (fun p =>
          (buildFrom ctx (idx + u.length) v p.2).map (fun q => (p.1 ++ q.1, q.2)))
  | [], v, idx, added => by
    cases hv : buildFrom ctx idx v added with
    | error e => simp [buildFrom, hv]
    | ok q => simp [buildFrom, hv]
  | none :: u, v, idx, added => by
    rw [List.cons_append, buildFrom, buildFrom]
    cases hc : charPiece ctx (ctx.pageOffset + idx) with
    | error e => rfl
    | ok s =>
      rw [buildFrom_append ctx u v (idx + 1) added]
      cases hu : buildFrom ctx (idx + 1) u added with
      | error e => rfl
      | ok p =>
        have harith : idx + 1 + u.length = idx + (u.length + 1) := by omega
        rw [harith]
        cases hv : buildFrom ctx (idx + (u.length + 1)) v p.2 with
        | error e => simp [hv]
        | ok q => simp [hv, String.append_assoc]
  | some tid :: u, v, idx, added => by
    rw [List.cons_append, buildFrom, buildFrom]
    by_cases hmem : tid ∈ added
    · rw [if_pos hmem, if_pos hmem, buildFrom_append ctx u v (idx + 1) added]
      have harith : idx + 1 + u.length = idx + (u.length + 1) := by omega
      rw [harith]
      rfl
    · rw [if_neg hmem, if_neg hmem]
      cases ht : ctx.tops.get? tid with
      | none => rfl
      | some t =>
        rw [buildFrom_append ctx u v (idx + 1) (added ++ [tid])]
        cases hu : buildFrom ctx (idx + 1) u (added ++ [tid]) with
        | error e => rfl
        | ok p =>
          have harith : idx + 1 + u.length = idx + (u.length + 1) := by omega
          rw [harith]
          cases hv : buildFrom ctx (idx + (u.length + 1)) v p.2 with
          | error e => simp [hv]
          | ok q => simp [hv, String.append_assoc]

theorem buildFrom_added (ctx : PageCtx) :
    ∀ (tc : List (Option Nat)) (idx : Nat) (added : List Nat) (s : String)
      (a : List Nat), buildFrom ctx idx tc added = .ok (s, a) →
      ∀ t : Nat, t ∈ a ↔ t ∈ added ∨ some t ∈ tc
  | [], idx, added, s, a, h, t => by
    obtain ⟨rfl, rfl⟩ : ("" = s) ∧ (added = a) := by
      rw [buildFrom] at h
      injection h with h2
      exact ⟨congrArg Prod.fst h2, congrArg Prod.snd h2⟩
    simp
  | none :: tc, idx, added, s, a, h, t => by
    rw [buildFrom] at h
    obtain ⟨sc, hc, h⟩ := bindOk h
    obtain ⟨⟨s2, a2⟩, h1, h2⟩ := bindOk h
    obtain rfl : a2 = a := by
      injection h2 with h3
      exact congrArg Prod.snd h3
    have IH := buildFrom_added ctx tc (idx + 1) added s2 a2 h1 t
    simp [IH]
  | some tid :: tc, idx, added, s, a, h, t => by
    rw [buildFrom] at h
    by_cases hmem : tid ∈ added
    · rw [if_pos hmem] at h
      have IH := buildFrom_added ctx tc (idx + 1) added s a h t
      rw [IH]
      by_cases ht : t = tid
      · subst ht
        simp [hmem]
      · simp [ht]
    · rw [if_neg hmem] at h
      cases hg : ctx.tops.get? tid with
      | none =>
        rw [hg] at h
        exact absurd h (fun hh => Except.noConfusion hh)
      | some tb =>
        rw [hg] at h
        obtain ⟨⟨s2, a2⟩, h1, h2⟩ := bindOk h
        obtain rfl : a2 = a := by
          injection h2 with h3
          exact congrArg Prod.snd h3
        have IH := buildFrom_added ctx tc (idx + 1) (added ++ [tid]) s2 a2 h1 t
        rw [IH]
        by_cases ht : t = tid
        · subst ht
          simp
        · simp [ht]

/-- Claim C2: when a page's character array marks some character with a
table id (first such mark after a prefix `u` free of it), the page text is
exactly the scan of `u`, then that table's full HTML rendering emitted once,
then the scan of the rest; at every later occurrence of the same id the
scan step emits nothing (it skips to the next index unchanged), no matter
how many discontiguous spans produced the marks. -/
theorem table_rendered_once_at_first_mark (ctx : PageCtx)
    (u v : List (Option Nat)) (tid : Nat) (ptext : String)
    (hu : some tid ∉ u)
    (h : buildPageText ctx (u ++ some tid :: v) = .ok ptext) :
    ∃ t s1 a1 s2 a2,
      ctx.tops.get? tid = some t ∧
      buildFrom ctx 0 u [] = .ok (s1, a1) ∧
      buildFrom ctx (u.length + 1) v (a1 ++ [tid]) = .ok (s2, a2) ∧
      ptext = s1 ++ _table_to_html t ++ s2 ∧
      (∀ (v1 v2 : List (Option Nat)), v = v1 ++ some tid :: v2 →
        ∀ (s3 : String) (a3 : List Nat),
          buildFrom ctx (u.length + 1) v1 (a1 ++ [tid]) = .ok (s3, a3) →
          tid ∈ a3 ∧
          buildFrom ctx (u.length + 1 + v1.length) (some tid :: v2) a3
            = buildFrom ctx (u.length + 1 + v1.length + 1) v2 a3) := by
  rw [buildPageText] at h
  cases hb : buildFrom ctx 0 (u ++ some tid :: v) [] with
  | error e => rw [hb] at h; exact absurd h (fun hh => Except.noConfusion hh)
  | ok p =>
    rw [hb] at h
    obtain rfl : p.1 = ptext := by injection h
    obtain ⟨s, a⟩ := p
    rw [buildFrom_append] at hb
    obtain ⟨⟨s1, a1⟩, h1, hb⟩ := bindOk hb
    rw [Nat.zero_add] at hb
    have hna : tid ∉ a1 := by
      rw [buildFrom_added ctx u 0 [] s1 a1 h1 tid]
      simpa using hu
    rw [buildFrom, if_neg hna] at hb
    cases hg : ctx.tops.get? tid with
    | none =>
      rw [hg] at hb
      exact absurd hb (fun hh => Except.noConfusion hh)
    | some t =>
      rw [hg] at hb
      cases hb2 : buildFrom ctx (u.length + 1) v (a1 ++ [tid]) with
      | error e => rw [hb2] at hb; exact absurd hb (fun hh => Except.noConfusion hh)
      | ok q =>
        obtain ⟨s2, a2⟩ := q
        rw [hb2] at hb
        obtain ⟨hs, ha⟩ : (s1 ++ (_table_to_html t ++ s2) = s) ∧ (a2 = a) := by
          injection hb with h3
          exact ⟨congrArg Prod.fst h3, congrArg Prod.snd h3⟩
        refine ⟨t, s1, a1, s2, a2, rfl, h1, hb2, ?_, ?_⟩
        · rw [← hs]
          simp [String.append_assoc]
        · intro v1 v2 hv s3 a3 h3
          have htid : tid ∈ a3 := by
            rw [buildFrom_added ctx v1 (u.length + 1) (a1 ++ [tid]) s3 a3 h3 tid]
            simp
          exact ⟨htid, by rw [buildFrom, if_pos htid]⟩

/-- Witness for C2: a three-character page whose last two characters carry
two discontiguous marks of table 0; the table HTML appears once, at the
first mark. -/
theorem table_rendered_once_at_first_mark_witness :
    (some 0 ∉ ([none] : List (Option Nat))) ∧
    buildPageText ctx2 ([none] ++ some 0 :: [some 0]) =
      .ok ("X<table><tr><th>A</th><th>B</th></tr><tr><td>C</td><td>D</td></tr></table>") ∧
    (∃ t s1 a1 s2 a2,
      ctx2.tops.get? 0 = some t ∧
      buildFrom ctx2 0 [none] [] = .ok (s1, a1) ∧
      buildFrom ctx2 ([none] : List (Option Nat)).length.succ [some 0] (a1 ++ [0]) = .ok (s2, a2) ∧
      "X<table><tr><th>A</th><th>B</th></tr><tr><td>C</td><td>D</td></tr></table>"
        = s1 ++ _table_to_html t ++ s2 ∧
      (∀ (v1 v2 : List (Option Nat)), [some 0] = v1 ++ some 0 :: v2 →
        ∀ (s3 : String) (a3 : List Nat),
          buildFrom ctx2 (([none] : List (Option Nat)).length + 1) v1 (a1 ++ [0]) = .ok (s3, a3) →
          0 ∈ a3 ∧
          buildFrom ctx2 (([none] : List (Option Nat)).length + 1 + v1.length) (some 0 :: v2) a3
            = buildFrom ctx2 (([none] : List (Option Nat)).length + 1 + v1.length + 1) v2 a3)) :=
  ⟨by decide, by rfl,
    table_rendered_once_at_first_mark ctx2 [none] [some 0] 0 _ (by decide) (by rfl)⟩

/-- Claim C10: at an unmarked scan position whose absolute offset is both
a recorded role start and a recorded role end, the output is opening tag,
then closing tag, then the literal character, in that order. -/
theorem tag_order_at_shared_boundary (ctx : PageCtx)
    (u v : List (Option Nat)) (ptext : String) (r1 g1 r2 g2 : String) (c : Char)
    (hrs : dictGet ctx.rs (ctx.pageOffset + u.length) = some r1)
    (hg1 : form_recognizer_role_to_html r1 = some g1)
    (hre : dictGet ctx.re (ctx.pageOffset + u.length) = some r2)
    (hg2 : form_recognizer_role_to_html r2 = some g2)
    (hc : ctx.content.get? (ctx.pageOffset + u.length) = some c)
    (h : buildPageText ctx (u ++ none :: v) = .ok ptext) :
    ∃ s1 a1 s2 a2,
      buildFrom ctx 0 u [] = .ok (s1, a1) ∧
      buildFrom ctx (u.length + 1) v a1 = .ok (s2, a2) ∧
      ptext = s1 ++ ("<" ++ g1 ++ ">") ++ ("</" ++ g2 ++ ">")
        ++ String.singleton c ++ s2 := by
  have hc2 : ctx.content[ctx.pageOffset + u.length]? = some c := by
    simpa using hc
  have hcp : charPiece ctx (ctx.pageOffset + u.length) =
      .ok (("<" ++ g1 ++ ">") ++ ("</" ++ g2 ++ ">") ++ String.singleton c) := by
    simp [charPiece, hc2, startTag, hrs, hg1, endTag, hre, hg2,
      String.append_assoc]
  rw [buildPageText] at h
  cases hb : buildFrom ctx 0 (u ++ none :: v) [] with
  | error e => rw [hb] at h; exact absurd h (fun hh => Except.noConfusion hh)
  | ok p =>
    rw [hb] at h
    obtain rfl : p.1 = ptext := by injection h
    obtain ⟨s, a⟩ := p
    rw [buildFrom_append] at hb
    obtain ⟨⟨s1, a1⟩, h1, hb⟩ := bindOk hb
    rw [Nat.zero_add] at hb
    rw [buildFrom, hcp] at hb
    cases hb2 : buildFrom ctx (u.length + 1) v a1 with
    | error e => rw [hb2] at hb; exact absurd hb (fun hh => Except.noConfusion hh)
    | ok q =>
      obtain ⟨s2, a2⟩ := q
      rw [hb2] at hb
      obtain hs : s1 ++ ((("<" ++ g1 ++ ">") ++ ("</" ++ g2 ++ ">")
          ++ String.singleton c) ++ s2) = s := by
        injection hb with h3
        exact congrArg Prod.fst h3
      refine ⟨s1, a1, s2, a2, h1, hb2, ?_⟩
      rw [← hs]
      simp [String.append_assoc]

theorem dictGet_single (a : Nat) (v : String) (k : Nat) :
    dictGet [(a, v)] k = if a = k then some v else none := by
  by_cases h : a = k
  · subst h
    simp [dictGet, List.find?]
  · have hb : (a == k) = false := by simpa using h
    simp [dictGet, List.find?, h, hb]

theorem startTag_single_ne (a : Nat) (v : String) (k : Nat) (h : a ≠ k) :
    startTag [(a, v)] k = "" := by
  simp [startTag, dictGet_single, h]

theorem endTag_single_ne (a : Nat) (v : String) (k : Nat) (h : a ≠ k) :
    endTag [(a, v)] k = "" := by
  simp [endTag, dictGet_single, h]

theorem buildFrom_replicate_none (ctx : PageCtx) :
    ∀ (n idx : Nat) (added : List Nat),
      (∀ k, k < n → ctx.pageOffset + idx + k < ctx.content.length) →
      buildFrom ctx idx (List.replicate n none) added =
        .ok (renderPlain ctx (ctx.pageOffset + idx) n, added)
  | 0, idx, added, h => by
    simp [buildFrom, renderPlain]
  | n + 1, idx, added, h => by
    have hlt : ctx.pageOffset + idx < ctx.content.length := by
      have := h 0 (Nat.succ_pos n)
      omega
    have hg : ctx.content.get? (ctx.pageOffset + idx)
        = some (ctx.content.getD (ctx.pageOffset + idx) ' ') := by
      rw [List.getD]
      cases hq : ctx.content.get? (ctx.pageOffset + idx) with
      | none =>
        rw [List.get?_eq_none] at hq
        omega
      | some c => rfl
    have hc : charPiece ctx (ctx.pageOffset + idx) =
        .ok (startTag ctx.rs (ctx.pageOffset + idx)
          ++ endTag ctx.re (ctx.pageOffset + idx)
          ++ String.singleton (ctx.content.getD (ctx.pageOffset + idx) ' ')) := by
      rw [charPiece, hg]
    rw [List.replicate_succ, buildFrom, hc,
      buildFrom_replicate_none ctx n (idx + 1) added
        (fun k hk => by have := h (k + 1) (by omega); omega)]
    have harith : ctx.pageOffset + (idx + 1) = ctx.pageOffset + idx + 1 := by omega
    rw [harith]
    simp [renderPlain, String.append_assoc]

theorem renderPlain_add (ctx : PageCtx) :
    ∀ (m pos n : Nat),
      renderPlain ctx pos (m + n)
        = renderPlain ctx pos m ++ renderPlain ctx (pos + m) n
  | 0, pos, n => by
    simp [renderPlain]
  | m + 1, pos, n => by
    have h1 : m + 1 + n = (m + n) + 1 := by omega
    rw [h1, renderPlain, renderPlain, renderPlain_add ctx m (pos + 1) n]
    have h2 : pos + 1 + m = pos + (m + 1) := by omega
    rw [h2]
    simp [String.append_assoc]

theorem segStr_cons (content : List Char) (pos n : Nat) (h : pos < content.length) :
    segStr content pos (n + 1)
      = String.singleton (content.getD pos ' ') ++ segStr content (pos + 1) n := by
  rw [segStr, segStr, List.drop_eq_getElem_cons h, List.take_succ_cons]
  rw [show content.getD pos ' ' = content[pos] from by
    rw [List.getD, List.get?_eq_getElem?, List.getElem?_eq_getElem h]
    rfl]
  rw [String.congr_append]
  rfl

theorem renderPlain_plain (ctx : PageCtx) :
    ∀ (n pos : Nat),
      (∀ k, k < n → startTag ctx.rs (pos + k) = "" ∧ endTag ctx.re (pos + k) = "") →
      pos + n ≤ ctx.content.length →
      renderPlain ctx pos n = segStr ctx.content pos n
  | 0, pos, h, hb => by
    simp [renderPlain, segStr]
  | n + 1, pos, h, hb => by
    have h0 : startTag ctx.rs pos = "" ∧ endTag ctx.re pos = "" := by
      simpa using h 0 (Nat.succ_pos n)
    rw [renderPlain, h0.1, h0.2,
      renderPlain_plain ctx n (pos + 1)
        (fun k hk => by
          simpa [show pos + 1 + k = pos + (k + 1) from by omega]
            using h (k + 1) (by omega))
        (by omega),
      segStr_cons ctx.content pos n (by omega)]
    simp

theorem tableChars_nil (po pl : Nat) :
    tableChars po pl [] = List.replicate pl none := rfl

/-- Claim C4: a paragraph with role "title" whose first span covers
document offsets [5,10), on a single table-free page covering [0,L), yields
a page text equal to the characters before offset 5, then `<h1>`
immediately before the character at offset 5, the characters of [5,10),
`</h1>` immediately after the character at offset 9, the remaining
characters, and the trailing page separator. -/
theorem title_role_wrapping (content : List Char) (L : Nat)
    (h10 : 10 < L) (hL : L ≤ content.length) :
    buildPageMap (titleDoc content L) = .ok
      [⟨0, 0, segStr content 0 5 ++ "<h1>" ++ segStr content 5 5
        ++ "</h1>" ++ segStr content 10 (L - 10) ++ " "⟩] := by
  have hbound : ∀ k, k < L →
      (⟨content, [(5, "title")], [(10, "title")], 0, []⟩ : PageCtx).pageOffset + 0 + k
        < (⟨content, [(5, "title")], [(10, "title")], 0, []⟩ : PageCtx).content.length := by
    intro k hk
    show 0 + 0 + k < content.length
    omega
  have hrep := buildFrom_replicate_none
    (⟨content, [(5, "title")], [(10, "title")], 0, []⟩ : PageCtx) L 0 [] hbound
  have hsplit : renderPlain (⟨content, [(5, "title")], [(10, "title")], 0, []⟩ : PageCtx) 0 L
      = segStr content 0 5 ++ "<h1>" ++ segStr content 5 5
        ++ "</h1>" ++ segStr content 10 (L - 10) := by
    have hL5 : L = 5 + (1 + (4 + (1 + (L - 11)))) := by omega
    conv_lhs => rw [hL5]
    rw [renderPlain_add, renderPlain_add, renderPlain_add, renderPlain_add]
    norm_num
    have p1 : renderPlain (⟨content, [(5, "title")], [(10, "title")], 0, []⟩ : PageCtx) 0 5
        = segStr content 0 5 := by
      refine renderPlain_plain _ 5 0 (fun k hk => ?_)
        (by show 0 + 5 ≤ content.length; omega)
      exact ⟨startTag_single_ne 5 "title" (0 + k) (by omega),
        endTag_single_ne 10 "title" (0 + k) (by omega)⟩
    have p3 : renderPlain (⟨content, [(5, "title")], [(10, "title")], 0, []⟩ : PageCtx) 6 4
        = segStr content 6 4 := by
      refine renderPlain_plain _ 4 6 (fun k hk => ?_)
        (by show 6 + 4 ≤ content.length; omega)
      exact ⟨startTag_single_ne 5 "title" (6 + k) (by omega),
        endTag_single_ne 10 "title" (6 + k) (by omega)⟩
    have p5 : renderPlain (⟨content, [(5, "title")], [(10, "title")], 0, []⟩ : PageCtx) 11 (L - 11)
        = segStr content 11 (L - 11) := by
      refine renderPlain_plain _ (L - 11) 11 (fun k hk => ?_)
        (by show 11 + (L - 11) ≤ content.length; omega)
      exact ⟨startTag_single_ne 5 "title" (11 + k) (by omega),
        endTag_single_ne 10 "title" (11 + k) (by omega)⟩
    have p2 : renderPlain (⟨content, [(5, "title")], [(10, "title")], 0, []⟩ : PageCtx) 5 1
        = "<h1>" ++ String.singleton (content.getD 5 ' ') := by
      show startTag [(5, "title")] 5 ++ endTag [(10, "title")] 5
          ++ String.singleton (content.getD 5 ' ')
          ++ renderPlain (⟨content, [(5, "title")], [(10, "title")], 0, []⟩ : PageCtx) 6 0
        = "<h1>" ++ String.singleton (content.getD 5 ' ')
      rw [show startTag [(5, "title")] 5 = "<h1>" from by
        simp [startTag, dictGet_single, form_recognizer_role_to_html],
        endTag_single_ne 10 "title" 5 (by omega)]
      simp [renderPlain]
    have p4 : renderPlain (⟨content, [(5, "title")], [(10, "title")], 0, []⟩ : PageCtx) 10 1
        = "</h1>" ++ String.singleton (content.getD 10 ' ') := by
      show startTag [(5, "title")] 10 ++ endTag [(10, "title")] 10
          ++ String.singleton (content.getD 10 ' ')
          ++ renderPlain (⟨content, [(5, "title")], [(10, "title")], 0, []⟩ : PageCtx) 11 0
        = "</h1>" ++ String.singleton (content.getD 10 ' ')
      rw [startTag_single_ne 5 "title" 10 (by omega),
        show endTag [(10, "title")] 10 = "</h1>" from by
          simp [endTag, dictGet_single, form_recognizer_role_to_html]]
      simp [renderPlain]
    rw [p1, p2, p3, p4, p5]
    rw [show segStr content 5 5
        = String.singleton (content.getD 5 ' ') ++ segStr content 6 4 from
      segStr_cons content 5 4 (by omega)]
    rw [show segStr content 10 (L - 10)
        = String.singleton (content.getD 10 ' ') ++ segStr content 11 (L - 11) from by
      rw [show L - 10 = (L - 11) + 1 from by omega]
      exact segStr_cons content 10 (L - 11) (by omega)]
    simp [String.append_assoc]
  have hone : ∀ (res : AnalyzeResult) (rs re : List (Nat × String)) (page : DIPage)
      (ptext : String),
      res.pages = [page] → buildRoles res.paragraphs = .ok (rs, re) →
      buildPage res rs re 0 page = .ok ptext →
      buildPageMap res = .ok [⟨0, 0, ptext⟩] := by
    intro res rs re page ptext hp hr hpg
    rw [buildPageMap, hr]
    simp only [ok_bind]
    rw [hp, buildPages, hpg]
    simp [buildPages]
  refine hone (titleDoc content L) [(5, "title")] [(10, "title")] ⟨[⟨0, L⟩]⟩ _ rfl rfl ?_
  show (buildPageText (⟨content, [(5, "title")], [(10, "title")], 0, []⟩ : PageCtx)
      (List.replicate L none)).map (fun s => s ++ " ")
    = .ok (segStr content 0 5 ++ "<h1>" ++ segStr content 5 5
        ++ "</h1>" ++ segStr content 10 (L - 10) ++ " ")
  rw [buildPageText, hrep]
  simp only [map_ok]
  rw [show ((⟨content, [(5, "title")], [(10, "title")], 0, []⟩ : PageCtx).pageOffset + 0 : Nat)
      = 0 from rfl]
  rw [hsplit]

/-- Witness for C4 on a concrete 13-character document: the title span
[5,10) is wrapped as `<h1>FGHIJ</h1>`. -/
theorem title_role_wrapping_witness :
    (10 < 13) ∧ (13 ≤ ("ABCDEFGHIJKLM".toList).length) ∧
    buildPageMap (titleDoc "ABCDEFGHIJKLM".toList 13)
      = .ok [⟨0, 0, "ABCDE<h1>FGHIJ</h1>KLM "⟩] :=
  ⟨by decide, by decide,
    title_role_wrapping "ABCDEFGHIJKLM".toList 13 (by decide) (by decide)⟩

theorem dictGet_eq_none (d : List (Nat × String)) (k : Nat)
    (h : ∀ e ∈ d, e.1 ≠ k) : dictGet d k = none := by
  rw [dictGet, List.find?_eq_none.mpr]
  · rfl
  · intro pr hpr
    simpa using h pr (List.mem_reverse.mp hpr)

theorem endTag_nil (p : Nat) : endTag [] p = "" := rfl

theorem buildFrom_re_irrelevant (ctx : PageCtx) :
    ∀ (tc : List (Option Nat)) (idx : Nat) (added : List Nat),
      (∀ e ∈ ctx.re, ctx.pageOffset + idx + tc.length ≤ e.1) →
      buildFrom ctx idx tc added = buildFrom { ctx with re := [] } idx tc added
  | [], idx, added, h => by
    rw [buildFrom, buildFrom]
  | none :: rest, idx, added, h => by
    have hend : endTag ctx.re (ctx.pageOffset + idx) = "" := by
      rw [endTag, dictGet_eq_none]
      intro e he
      have := h e he
      simp only [List.length_cons] at this
      omega
    have hcp : charPiece { ctx with re := [] } (ctx.pageOffset + idx)
        = charPiece ctx (ctx.pageOffset + idx) := by
      rw [charPiece, charPiece]
      dsimp only
      cases ctx.content.get? (ctx.pageOffset + idx) with
      | none => rfl
      | some c => rw [hend, endTag_nil]
    have IH := buildFrom_re_irrelevant ctx rest (idx + 1) added
      (fun e he => by have := h e he; simp only [List.length_cons] at this; omega)
    rw [buildFrom, buildFrom]
    dsimp only
    simp only [hcp, IH]
  | some tid :: rest, idx, added, h => by
    rw [buildFrom, buildFrom]
    dsimp only
    by_cases hmem : tid ∈ added
    · rw [if_pos hmem, if_pos hmem,
        buildFrom_re_irrelevant ctx rest (idx + 1) added
          (fun e he => by have := h e he; simp only [List.length_cons] at this; omega)]
    · rw [if_neg hmem, if_neg hmem]
      cases hg : ctx.tops.get? tid with
      | none => rfl
      | some t =>
        have IH := buildFrom_re_irrelevant ctx rest (idx + 1) (added ++ [tid])
          (fun e he => by have := h e he; simp only [List.length_cons] at this; omega)
        simp only [IH]

/-- Claim C9 (amended): within a single page's scan, role boundary maps
are consulted only at absolute offsets below `page_offset + page_length`,
so entries at or past the page end — in particular a paragraph end falling
exactly on the page end — contribute nothing to that page's page_text
(the scan behaves as if `roles_end` were empty); such a closing tag can
still be emitted by a later page whose range contains the offset. -/
theorem roles_end_confined_to_page (ctx : PageCtx) (tc : List (Option Nat))
    (h : ∀ e ∈ ctx.re, ctx.pageOffset + tc.length ≤ e.1) :
    buildPageText ctx tc = buildPageText { ctx with re := [] } tc := by
  rw [buildPageText, buildPageText,
    buildFrom_re_irrelevant ctx tc 0 []
      (fun e he => by have := h e he; omega)]

/-- Witness for the amended C9: a one-character page with a role ending
exactly at the page end produces the same text as with no role ends at
all. -/
theorem roles_end_confined_to_page_witness :
    (∀ e ∈ ctx9.re, ctx9.pageOffset + ([none] : List (Option Nat)).length ≤ e.1) ∧
    buildPageText ctx9 [none] = buildPageText ⟨['A'], [], [], 0, []⟩ [none] :=
  ⟨by decide, roles_end_confined_to_page ctx9 [none] (by decide)⟩

/-- Claim C6: `begin_analyze_document_from_url` either returns the full
page map, or — when the analysis call or the reconstruction raises — a
single wrapped error carrying the original exception as its cause and its
message in the diagnostic text; there is no other error path and never a
partial page map. -/
theorem error_wrapping_all_or_nothing (analysis : Except PyError AnalyzeResult) :
    (∃ res pm, analysis = .ok res ∧ buildPageMap res = .ok pm ∧
      begin_analyze_document_from_url analysis = .ok pm) ∨
    (∃ e : PyError, analysis.bind buildPageMap = .error e ∧
      begin_analyze_document_from_url analysis
        = .error ⟨"Error: <traceback>. Error: " ++ e.msg, e⟩) := by
  cases analysis with
  | error e => exact Or.inr ⟨e, rfl, rfl⟩
  | ok res =>
    cases hb : buildPageMap res with
    | error e =>
      refine Or.inr ⟨e, ?_, ?_⟩
      · simp [hb]
      · simp [begin_analyze_document_from_url, hb]
    | ok pm =>
      exact Or.inl ⟨res, pm, rfl, hb, by simp [begin_analyze_document_from_url, hb]⟩

/-- Witness for C10: offset 1 both ends a sectionHeading and starts a
title; the page text around it is `<h1></h2>B`. -/
theorem tag_order_at_shared_boundary_witness :
    dictGet ctx10.rs (ctx10.pageOffset + ([none] : List (Option Nat)).length) = some "title" ∧
    buildPageText ctx10 ([none] ++ none :: []) = .ok "A<h1></h2>B" ∧
    (∃ s1 a1 s2 a2,
      buildFrom ctx10 0 [none] [] = .ok (s1, a1) ∧
      buildFrom ctx10 (([none] : List (Option Nat)).length + 1) [] a1 = .ok (s2, a2) ∧
      "A<h1></h2>B" = s1 ++ ("<" ++ "h1" ++ ">") ++ ("</" ++ "h2" ++ ">")
        ++ String.singleton 'B' ++ s2) :=
  ⟨rfl, rfl,
    tag_order_at_shared_boundary ctx10 [none] [] "A<h1></h2>B"
      "title" "h1" "sectionHeading" "h2" 'B' rfl rfl rfl rfl rfl rfl⟩


